import Mathlib

/-!
Shallow embedding of the weekly collection leaderboard engine of
`src/routes/collections.tsx` (egdata-api): ISO week window resolution,
per-item snapshot selection inside a half-open window, ranking,
pagination, metadata/price join, the weekly route handler with its
Redis cache interaction, and the OG-image artifact path with its
content-addressed registry.

Instants are modelled as milliseconds since the Unix epoch (`Int`),
exactly the representation JS `Date.getTime()` exposes; all arithmetic
in the source is pure UTC millisecond arithmetic.
-/

/-- Milliseconds in one day, the `24 * 3600 * 1000` constant of the source. -/
def dayMs : Int := 86400000

/-- Days since the Unix epoch of the civil (proleptic Gregorian) date y-m-d,
the calendar computation ECMA-262 `Date.UTC(y, m-1, d)` performs
(Howard Hinnant's `days_from_civil`; Lean's `/` on `Int` floors for a
positive divisor, so no truncation trick is needed). -/
def daysFromCivil (y m d : Int) : Int :=
  let y2 := if m ≤ 2 then y - 1 else y
  let era := y2 / 400
  let yoe := y2 - era * 400
  let doy := (153 * (m + (if 2 < m then -3 else 9)) + 2) / 5 + d - 1
  let doe := yoe * 365 + yoe / 4 - yoe / 100 + doy
  era * 146097 + doe - 719468

/-- Models `Date.UTC(y, m-1, d)`: the UTC-midnight instant of a civil date, in ms. -/
def dateUTCms (y m d : Int) : Int := daysFromCivil y m d * dayMs

/-- Models `getUTCDay()` for a day number: 0 = Sunday .. 6 = Saturday
(day 0 = 1970-01-01 was a Thursday, code 4). -/
def weekdayOfDays (days : Int) : Int := (days + 4) % 7

/-- Numeric value of a decimal digit character. -/
def digitVal (c : Char) : Int := (c.toNat : Int) - 48

/-- The `/^(\d{4})W(\d{2})$/` match of `getIsoWeekRangeUTC`, returning
`(year, weekNumber)` on success. -/
def parseWeek (week : String) : Option (Int × Int) :=
  match week.toList with
  | [y1, y2, y3, y4, c5, n1, n2] =>
    if y1.isDigit && y2.isDigit && y3.isDigit && y4.isDigit &&
        (c5 == 'W') && n1.isDigit && n2.isDigit then
      some (1000 * digitVal y1 + 100 * digitVal y2 + 10 * digitVal y3 + digitVal y4,
            10 * digitVal n1 + digitVal n2)
    else none
  | _ => none

/-- Models `getIsoWeekRangeUTC` of the source: parse `YYYYWNN`, take Jan 4 of the
year (always in ISO week 1), back up to the Monday of that week, add
`(weekNumber - 1) * 7` days; the end is `start + 7` days, exclusive.
`none` models the thrown "Invalid week format" error.  The source works in
milliseconds throughout; every intermediate quantity is a whole number of
days, written here as `days * dayMs`. -/
def getIsoWeekRangeUTC (week : String) : Option (Int × Int) :=
  match parseWeek week with
  | none => none
  | some (year, wn) =>
    let jan4 := daysFromCivil year 1 4
    let jan4Day := weekdayOfDays jan4
    let isoMonOfWeek1 := jan4 - (if jan4Day = 0 then 6 else jan4Day - 1)
    let start := isoMonOfWeek1 * dayMs + (wn - 1) * 7 * dayMs
    some (start, start + 7 * dayMs)

/-! ## Data model: snapshots and position histories -/

/-- One element of a `GamePosition.positions` array: a timestamped rank
record (`date` in epoch ms, `position` with `0` = unranked). -/
structure Snapshot where
  date : Int
  position : Int
deriving DecidableEq, Repr

/-- A `GamePosition` document: the position history of one offer inside one
collection. -/
structure GamePosDoc where
  collectionId : String
  offerId : String
  positions : List Snapshot
deriving DecidableEq, Repr

/-- The `inWeek` predicate of the route:
`d.getTime() >= start.getTime() && d.getTime() < endExclusive.getTime()`. -/
def inWeek (start endEx d : Int) : Bool := start ≤ d && d < endEx

/-- Models `offer.positions.filter((p) => inWeek(new Date(p.date)) && Number(p.position) > 0)`. -/
def positionsInWeek (start endEx : Int) (o : GamePosDoc) : List Snapshot :=
  o.positions.filter (fun p => inWeek start endEx p.date && 0 < p.position)

/-- The body of `positionsInWeek.reduce((a, b) => new Date(a.date).getTime()
>= new Date(b.date).getTime() ? a : b)`: JS `reduce` with no seed starts from
the first element and folds left. -/
def latest1 (a : Snapshot) (l : List Snapshot) : Snapshot :=
  l.foldl (fun x y => if y.date ≤ x.date then x else y) a

/-- One ranked entry as built in `offersWithPositions`: the offer together
with its representative `position` for the week and the in-window snapshots. -/
structure RankedOffer where
  offerId : String
  position : Int
  positions : List Snapshot
deriving DecidableEq, Repr

/-- The per-offer step of `offersWithPositions`: `null` when no snapshot in
the window qualifies, otherwise the entry carrying the latest in-window
position. -/
def offerWithPositions (start endEx : Int) (o : GamePosDoc) : Option RankedOffer :=
  match positionsInWeek start endEx o with
  | [] => none
  | a :: rest => some ⟨o.offerId, (latest1 a rest).position, a :: rest⟩

/-- Models `offersWithPositions`: map the per-offer step over the collection's
histories and drop the `null`s (`.filter(Boolean).filter((o) => o !== null)`). -/
def offersWithPositions (start endEx : Int) (offers : List GamePosDoc) :
    List RankedOffer :=
  (offers.map (offerWithPositions start endEx)).filterMap id

/-- Models `ranked`: keep entries with a numeric `position > 0` and sort ascending
by `position` (`Array.prototype.sort` is stable, modelled by `mergeSort`). -/
def ranked (start endEx : Int) (offers : List GamePosDoc) : List RankedOffer :=
  ((offersWithPositions start endEx offers).filter (fun o => 0 < o.position)).mergeSort
    (fun a b => a.position ≤ b.position)

/-- Models `ranked.slice(skip, skip + limit)` for the non-negative arguments the
route produces (`skip = (page - 1) * limit`). -/
def pageSlice (skip limit : Nat) (l : List RankedOffer) : List RankedOffer :=
  (l.drop skip).take limit

/-! ## Metadata/price join and the page payload -/

/-- An `Offer` document as far as the route reads it. -/
structure OfferDoc where
  id : String
  title : String
deriving DecidableEq, Repr

/-- The `price.price` sub-object of a `PriceEngine` document. -/
structure PriceInfo where
  originalPrice : Int
  discountPrice : Int
  discount : Int
  currencyCode : String
deriving DecidableEq, Repr

/-- A `PriceEngine` document as far as the route reads it. -/
structure PriceDoc where
  offerId : String
  region : String
  price : PriceInfo
deriving DecidableEq, Repr

/-- One element of the weekly payload: offer metadata spread out, the ranked
entry under `metadata`, and the price document. -/
structure JoinedRow where
  offer : OfferDoc
  metadata : RankedOffer
  price : PriceDoc
deriving DecidableEq, Repr

/-- The per-row body of `offersWithMetadata`: find the offer and the price by
id; `null` (with a `console.error` diagnostic) when either is missing. -/
def joinRow (offersData : List OfferDoc) (pricesData : List PriceDoc)
    (o : RankedOffer) : Option JoinedRow :=
  match offersData.find? (fun x => x.id == o.offerId),
      pricesData.find? (fun x => x.offerId == o.offerId) with
  | some offerData, some priceData => some ⟨offerData, o, priceData⟩
  | _, _ => none

/-- Models `offersWithMetadata`: join each sliced entry, dropping the misses
(`.filter(Boolean)`). -/
def offersWithMetadata (offersData : List OfferDoc) (pricesData : List PriceDoc)
    (items : List RankedOffer) : List JoinedRow :=
  items.filterMap (joinRow offersData pricesData)

/-- The offer ids for which the route logs
`console.error("Offer or price not found for ...")`, in order: one
diagnostic per dropped row. -/
def joinDiagnostics (offersData : List OfferDoc) (pricesData : List PriceDoc)
    (items : List RankedOffer) : List String :=
  (items.filter (fun o => (joinRow offersData pricesData o).isNone)).map
    (fun o => o.offerId)

/-- A `Collection` document as far as the route reads it. -/
structure CollectionDoc where
  idStr : String
  name : String
  updatedAt : String
deriving DecidableEq, Repr

/-- The weekly `result` payload. -/
structure Page where
  elements : List JoinedRow
  page : Nat
  limit : Nat
  title : String
  total : Nat
  updatedAt : String
  start : Int
  endEx : Int
deriving DecidableEq, Repr

/-- The weekly `result` object assembled by the route, given the resolved
window, the collection's position histories, the two batched lookup results,
and the clamped `page`/`limit`. -/
def weeklyResultOf (start endEx : Int) (offers : List GamePosDoc)
    (offersData : List OfferDoc) (pricesData : List PriceDoc)
    (page limit : Nat) (col : CollectionDoc) : Page :=
  let rankedList := ranked start endEx offers
  let pageItems := pageSlice ((page - 1) * limit) limit rankedList
  { elements := offersWithMetadata offersData pricesData pageItems
    page := page
    limit := limit
    title := col.name
    total := rankedList.length
    updatedAt := col.updatedAt
    start := start
    endEx := endEx }

/-! ## The weekly route handler with its cache interaction

The Redis cache holds the JSON-serialized payload; `JSON.parse ∘
JSON.stringify` round-trips the payload, so a cache entry is modelled as the
`Page` itself, keyed by the cache-key string.  In the source the cache *read*
of this route (lines 182–185) is commented out, so the handler below
recomputes unconditionally and only ever *writes* the cache. -/

/-- The database visible to the handler; each `find` of the route is a
filter/find over these lists. -/
structure Db where
  collections : List CollectionDoc
  gamePositions : List GamePosDoc
  offers : List OfferDoc
  prices : List PriceDoc
deriving Repr

/-- Models `client.set(cacheKey, value, "EX", 3600)`: upsert a key. -/
def cacheSet (cache : List (String × Page)) (key : String) (v : Page) :
    List (String × Page) :=
  if cache.any (fun e => e.1 == key) then
    cache.map (fun e => if e.1 == key then (key, v) else e)
  else cache ++ [(key, v)]

/-- The three ways the weekly route responds. -/
inductive WeeklyResp where
  | invalidWeek
  | notFound
  | ok (p : Page)
deriving DecidableEq, Repr

/-- Builds the route's cache key
`collections:${week}:${slug}:${region}:${page}:${limit}` from the clamped
values. -/
def weeklyCacheKey (week slug region : String) (page limit : Nat) : String :=
  "collections:" ++ week ++ ":" ++ slug ++ ":" ++ region ++ ":" ++
    toString page ++ ":" ++ toString limit

/-- The `GET /:slug/:week` handler after region resolution, over already
parsed numeric query values: clamp `limit` to at most 50 and `page` to at
least 1, resolve the week window (throw = `invalidWeek`), look up the
collection, run the ranking pipeline on the collection's histories, join the
sliced page against the batched offer/price lookups, store the payload in
the cache, and return it.  The cache lookup is disabled in the source, so
the incoming cache content never affects the response. -/
def weeklyHandler (db : Db) (cache : List (String × Page))
    (slug week region : String) (limitQ pageQ : Nat) :
    WeeklyResp × List (String × Page) :=
  let limit := min limitQ 50
  let page := max pageQ 1
  let cacheKey := weeklyCacheKey week slug region page limit
  match getIsoWeekRangeUTC week with
  | none => (.invalidWeek, cache)
  | some (start, endEx) =>
    match db.collections.find? (fun col => col.idStr == slug) with
    | none => (.notFound, cache)
    | some col =>
      let offers := db.gamePositions.filter (fun g => g.collectionId == col.idStr)
      let pageItems := pageSlice ((page - 1) * limit) limit (ranked start endEx offers)
      let offersData := db.offers.filter
        (fun x => pageItems.any (fun o => x.id == o.offerId))
      let pricesData := db.prices.filter
        (fun x => pageItems.any (fun o => x.offerId == o.offerId) && x.region == region)
      let result := weeklyResultOf start endEx offers offersData pricesData page limit col
      (.ok result, cacheSet cache cacheKey result)

/-! ## The OG-image artifact path and its content-addressed registry

The source hashes `JSON.stringify({week, region, items: [...]})` with
SHA-256.  `JSON.stringify` of that fixed-shape object is injective on the
listed fields and SHA-256 is deterministic, so the hash key is modelled as
the hashed content itself. -/

/-- The per-row content that enters the OG hash:
`{id, title, pos, dp, op, d}` (prices `null` when absent). -/
structure OgRow where
  id : String
  title : String
  pos : Int
  dp : Option Int
  op : Option Int
  d : Option Int
deriving DecidableEq, Repr

/-- The hashed content: week, region and the top-N rows. -/
def OgKey : Type := String × String × List OgRow

instance : DecidableEq OgKey := by
  unfold OgKey
  infer_instance

/-- A document of the `tops-og` Mongo collection. -/
structure RegistryDoc where
  imageId : String
  hash : OgKey
deriving DecidableEq

/-- Models `db.collection("tops-og").updateOne({imageId}, {$set: {imageId, hash}},
{upsert: true})`: rewrite the first matching document, or insert. -/
def upsertRegistry (reg : List RegistryDoc) (imageId : String) (hex : OgKey) :
    List RegistryDoc :=
  if reg.any (fun doc => doc.imageId == imageId) then
    reg.map (fun doc => if doc.imageId == imageId then ⟨imageId, hex⟩ else doc)
  else reg ++ [⟨imageId, hex⟩]

/-- The CDN url built for an uploaded image id. -/
def ogUrl (imageId : String) : String :=
  "https://cdn.egdata.app/cdn-cgi/imagedelivery/RlN2EBAhhGSZh5aeUaPz3Q/" ++
    imageId ++ "/og"

/-- The three response shapes of the OG route: the `{id, url}` JSON, the raw
PNG body (`direct`), or the `{error: "Failed to upload image"}` 400. -/
inductive OgResp where
  | json (id url : String)
  | png
  | uploadFailed
deriving DecidableEq

/-- Outcome of one OG request: the response, the registry afterwards, and
whether the render (satori/resvg) and the upload actually ran. -/
structure OgCall where
  resp : OgResp
  registry : List RegistryDoc
  rendered : Bool
  uploaded : Bool

/-- The tail of the OG route once it decides to render: produce the PNG;
return it raw when `direct`; otherwise upload (`uploadResult` models the
Cloudflare call: `.ok id` on `response.ok`, `.error` otherwise), and only
after a successful upload upsert the registry and answer `{id, url}`. -/
def ogRenderPath (reg : List RegistryDoc) (uploadResult : Except Unit String)
    (hex : OgKey) (direct : Bool) : OgCall :=
  if direct then ⟨.png, reg, true, false⟩
  else
    match uploadResult with
    | .error _ => ⟨.uploadFailed, reg, true, false⟩
    | .ok imageId =>
      ⟨.json imageId (ogUrl imageId), upsertRegistry reg imageId hex, true, true⟩

/-- The `GET /:slug/:week/og` handler from the point where the top rows are
fixed: hash the content; unless an SVG re-render is forced (`render`), look
the hash up in `tops-og`; on a hit with neither `direct` nor `render`
requested, answer the stored id and url with no render and no upload;
otherwise fall through to the render path. -/
def ogHandler (reg : List RegistryDoc) (uploadResult : Except Unit String)
    (week region : String) (rows : List OgRow) (render direct : Bool) : OgCall :=
  let hex : OgKey := (week, region, rows)
  let existingImage :=
    if render then none else reg.find? (fun doc => decide (doc.hash = hex))
  match existingImage with
  | some doc =>
    if !direct && !render then ⟨.json doc.imageId (ogUrl doc.imageId), reg, false, false⟩
    else ogRenderPath reg uploadResult hex direct
  | none => ogRenderPath reg uploadResult hex direct

/-! ## Helper lemmas -/

/-- Evaluates `ranked` on concrete inputs whose filtered entry list is
already sorted (`mergeSort` leaves a sorted list unchanged). -/
theorem ranked_eval (start endEx : Int) (offers : List GamePosDoc)
    (res : List RankedOffer)
    (hfil : (offersWithPositions start endEx offers).filter
      (fun o => 0 < o.position) = res)
    (hsort : List.Pairwise (fun a b : RankedOffer => a.position ≤ b.position) res) :
    ranked start endEx offers = res := by
  unfold ranked
  rw [hfil]
  apply List.mergeSort_of_sorted
  exact hsort.imp (fun h => by simpa using h)

theorem latest1_cons (a b : Snapshot) (l : List Snapshot) :
    latest1 a (b :: l) = latest1 (if b.date ≤ a.date then a else b) l := rfl

theorem latest1_mem (a : Snapshot) (l : List Snapshot) : latest1 a l ∈ a :: l := by
  induction l generalizing a with
  | nil => simp [latest1]
  | cons b t ih =>
    rw [latest1_cons]
    rcases List.mem_cons.mp (ih (if b.date ≤ a.date then a else b)) with h | h
    · rw [h]
      split <;> simp
    · simp [h]

theorem latest1_le (a : Snapshot) (l : List Snapshot) :
    ∀ t ∈ a :: l, t.date ≤ (latest1 a l).date := by
  induction l generalizing a with
  | nil =>
    intro t ht
    rw [List.mem_singleton] at ht
    simp [ht, latest1]
  | cons b u ih =>
    intro t ht
    rw [latest1_cons]
    have hc : (if b.date ≤ a.date then a else b) ∈
        (if b.date ≤ a.date then a else b) :: u := List.mem_cons_self _ _
    have hinit := ih (if b.date ≤ a.date then a else b) _ hc
    rcases List.mem_cons.mp ht with h | h
    · subst h
      refine le_trans ?_ hinit
      split <;> omega
    · rcases List.mem_cons.mp h with h2 | h2
      · subst h2
        refine le_trans ?_ hinit
        split <;> omega
      · exact ih _ t (List.mem_cons_of_mem _ h2)

/-! ## Claim theorems -/

/-- C2: for every well-formed week identifier `YYYYWNN` the resolver returns
`start = m + (NN - 1) * 7 days` where `m` is the UTC-midnight Monday of the
ISO week containing January 4 of year `YYYY` (a day-aligned instant, weekday
Monday, whose 7-day window contains Jan 4), and `end = start + 7 days`,
exclusive; in particular `2025W31` resolves to
`[2025-07-28T00:00:00Z, 2025-08-04T00:00:00Z)`. -/
theorem isoWeek_window_spec (week : String) (year wn : Int)
    (h : parseWeek week = some (year, wn)) :
    (∃ m, getIsoWeekRangeUTC week =
        some (m + (wn - 1) * 7 * dayMs, m + (wn - 1) * 7 * dayMs + 7 * dayMs) ∧
      m % dayMs = 0 ∧
      weekdayOfDays (m / dayMs) = 1 ∧
      m ≤ dateUTCms year 1 4 ∧ dateUTCms year 1 4 < m + 7 * dayMs) ∧
    getIsoWeekRangeUTC "2025W31" = some (dateUTCms 2025 7 28, dateUTCms 2025 8 4) := by
  constructor
  · unfold getIsoWeekRangeUTC
    rw [h]
    simp only [weekdayOfDays]
    refine ⟨(daysFromCivil year 1 4 -
      (if (daysFromCivil year 1 4 + 4) % 7 = 0 then 6
        else (daysFromCivil year 1 4 + 4) % 7 - 1)) * dayMs, ?_, ?_, ?_, ?_, ?_⟩
    · simp only [Option.some.injEq, Prod.mk.injEq]
    · exact Int.mul_emod_left _ _
    · rw [Int.mul_ediv_cancel _ (by decide : dayMs ≠ 0)]
      split <;> omega
    · simp only [dateUTCms, dayMs]
      split <;> omega
    · simp only [dateUTCms, dayMs]
      split <;> omega
  · decide

/-- C2 witness: instantiated at the concrete well-formed week `2025W31`. -/
theorem isoWeek_window_spec_witness :
    (∃ m, getIsoWeekRangeUTC "2025W31" =
        some (m + ((31 : Int) - 1) * 7 * dayMs, m + ((31 : Int) - 1) * 7 * dayMs + 7 * dayMs) ∧
      m % dayMs = 0 ∧
      weekdayOfDays (m / dayMs) = 1 ∧
      m ≤ dateUTCms 2025 1 4 ∧ dateUTCms 2025 1 4 < m + 7 * dayMs) ∧
    getIsoWeekRangeUTC "2025W31" = some (dateUTCms 2025 7 28, dateUTCms 2025 8 4) :=
  isoWeek_window_spec "2025W31" 2025 31 (by decide)

/-- C1: an item with a qualifying in-window snapshot is ranked with the
position of a maximum-date qualifying snapshot; in particular an item with
exactly the two in-window snapshots `(date 10, pos 3)` and `(date 20, pos 1)`
is ranked at position 1. -/
theorem weekly_rank_uses_latest_snapshot :
    (∀ start endEx o r, offerWithPositions start endEx o = some r →
      ∃ s ∈ positionsInWeek start endEx o, r.position = s.position ∧
        ∀ t ∈ positionsInWeek start endEx o, t.date ≤ s.date) ∧
    ranked 0 100 [⟨"c", "x", [⟨10, 3⟩, ⟨20, 1⟩]⟩] =
      [⟨"x", 1, [⟨10, 3⟩, ⟨20, 1⟩]⟩] := by
  constructor
  · intro start endEx o r hr
    unfold offerWithPositions at hr
    rcases hpos : positionsInWeek start endEx o with _ | ⟨a, rest⟩
    · rw [hpos] at hr
      exact absurd hr (by simp)
    · rw [hpos] at hr
      simp only [Option.some.injEq] at hr
      refine ⟨latest1 a rest, latest1_mem a rest, ?_, latest1_le a rest⟩
      rw [← hr]
  · exact ranked_eval 0 100 _ _ (by decide) (by simp)

/-- C1 witness: the general part applied to the two-snapshot item of the
claim's example. -/
theorem weekly_rank_uses_latest_snapshot_witness :
    ∃ s ∈ positionsInWeek 0 100 ⟨"c", "x", [⟨10, 3⟩, ⟨20, 1⟩]⟩,
      (⟨"x", 1, [⟨10, 3⟩, ⟨20, 1⟩]⟩ : RankedOffer).position = s.position ∧
        ∀ t ∈ positionsInWeek 0 100 ⟨"c", "x", [⟨10, 3⟩, ⟨20, 1⟩]⟩, t.date ≤ s.date :=
  weekly_rank_uses_latest_snapshot.1 0 100 ⟨"c", "x", [⟨10, 3⟩, ⟨20, 1⟩]⟩
    ⟨"x", 1, [⟨10, 3⟩, ⟨20, 1⟩]⟩ (by decide)

/-- C4: an item all of whose in-window snapshots have `position ≤ 0`
contributes no entry (`offerWithPositions` is `null`) and adding it to a
collection leaves the weekly ranking unchanged. -/
theorem nonpositive_snapshots_never_ranked (start endEx : Int)
    (offers : List GamePosDoc) (o : GamePosDoc)
    (h : ∀ p ∈ o.positions, inWeek start endEx p.date = true → p.position ≤ 0) :
    offerWithPositions start endEx o = none ∧
    ranked start endEx (offers ++ [o]) = ranked start endEx offers := by
  have hnil : positionsInWeek start endEx o = [] := by
    unfold positionsInWeek
    rw [List.filter_eq_nil_iff]
    intro p hp
    simp only [Bool.and_eq_true, decide_eq_true_eq, not_and]
    intro hin
    have := h p hp hin
    omega
  have hnone : offerWithPositions start endEx o = none := by
    unfold offerWithPositions
    rw [hnil]
  refine ⟨hnone, ?_⟩
  unfold ranked offersWithPositions
  rw [List.map_append, List.filterMap_append]
  simp [hnone]

/-- C4 witness: a concrete item whose only in-window snapshot has
position 0 is excluded. -/
theorem nonpositive_snapshots_never_ranked_witness :
    offerWithPositions 0 100 ⟨"c", "x", [⟨10, 0⟩]⟩ = none ∧
    ranked 0 100 ([⟨"c", "y", [⟨15, 2⟩]⟩] ++ [⟨"c", "x", [⟨10, 0⟩]⟩]) =
      ranked 0 100 [⟨"c", "y", [⟨15, 2⟩]⟩] :=
  nonpositive_snapshots_never_ranked 0 100 [⟨"c", "y", [⟨15, 2⟩]⟩]
    ⟨"c", "x", [⟨10, 0⟩]⟩ (by decide)

/-- Every snapshot that survives the in-week filter has a positive position. -/
theorem positionsInWeek_pos (start endEx : Int) (o : GamePosDoc) :
    ∀ p ∈ positionsInWeek start endEx o, 0 < p.position := by
  intro p hp
  unfold positionsInWeek at hp
  have h2 := List.of_mem_filter hp
  simp only [Bool.and_eq_true, decide_eq_true_eq] at h2
  exact h2.2

/-- Every entry produced by `offersWithPositions` carries a positive
representative position. -/
theorem offersWithPositions_pos (start endEx : Int) (offers : List GamePosDoc) :
    ∀ r ∈ offersWithPositions start endEx offers, 0 < r.position := by
  intro r hr
  unfold offersWithPositions at hr
  rw [List.mem_filterMap] at hr
  obtain ⟨x, hx, hid⟩ := hr
  simp only [id_eq] at hid
  subst hid
  rw [List.mem_map] at hx
  obtain ⟨o, _, ho⟩ := hx
  unfold offerWithPositions at ho
  rcases hpos : positionsInWeek start endEx o with _ | ⟨a, rest⟩ <;> rw [hpos] at ho
  · simp at ho
  · simp only [Option.some.injEq] at ho
    have hmem := latest1_mem a rest
    rw [← hpos] at hmem
    have hposn := positionsInWeek_pos start endEx o _ hmem
    rw [← ho]
    exact hposn

/-- A `filterMap` keeps exactly the elements whose image is `some`. -/
theorem length_filterMap_isSome {α β : Type} (f : α → Option β) (l : List α) :
    (l.filterMap f).length = (l.filter (fun x => (f x).isSome)).length := by
  induction l with
  | nil => simp
  | cons a t ih =>
    cases h : f a <;> simp [List.filterMap_cons, List.filter_cons, h, ih]

/-- An offer contributes an entry iff it has a qualifying in-window snapshot. -/
theorem offerWithPositions_isSome (start endEx : Int) (o : GamePosDoc) :
    (offerWithPositions start endEx o).isSome =
      !(positionsInWeek start endEx o).isEmpty := by
  unfold offerWithPositions
  rcases hpos : positionsInWeek start endEx o with _ | ⟨a, rest⟩ <;> simp

/-- C3: the weekly payload's `total` is the number of items with at least one
in-window snapshot of positive position — the length of the full pre-slice
ranking — whatever the requested `page` and `limit` and whatever the
metadata and price lookups return. -/
theorem weekly_total_counts_qualifying_items (start endEx : Int)
    (offers : List GamePosDoc) (offersData : List OfferDoc)
    (pricesData : List PriceDoc) (page limit : Nat) (col : CollectionDoc) :
    (weeklyResultOf start endEx offers offersData pricesData page limit col).total =
      (offers.filter (fun o => !(positionsInWeek start endEx o).isEmpty)).length := by
  show (ranked start endEx offers).length = _
  unfold ranked
  rw [List.length_mergeSort]
  rw [List.filter_eq_self.mpr (fun r hr => by
    simpa using offersWithPositions_pos start endEx offers r hr)]
  unfold offersWithPositions
  rw [List.filterMap_map, Function.id_comp]
  rw [length_filterMap_isSome]
  congr 1
  apply List.filter_congr
  intro o _
  exact offerWithPositions_isSome start endEx o

/-- Concatenating the length-`L` slices at offsets `0, L, 2L, …` of any list
yields its `k * L`-prefix. -/
theorem join_pageSlices {α : Type} (l : List α) (L k : Nat) :
    ((List.range k).map (fun i => (l.drop (i * L)).take L)).flatten = l.take (k * L) := by
  induction k with
  | zero => simp
  | succ k ih =>
    rw [List.range_succ, List.map_append, List.flatten_append]
    simp only [List.map_cons, List.map_nil, List.flatten_cons, List.flatten_nil,
      List.append_nil]
    rw [ih, Nat.succ_mul, List.take_add]

/-- C9: for every `L ≥ 1`, concatenating the page slices at
`skip = 0, L, 2L, …` (the route's `skip = (page - 1) * limit`) reproduces the
full ranking exactly — no duplicate, no missing item, ranking order
preserved. -/
theorem pagination_reconstructs_ranking (start endEx : Int)
    (offers : List GamePosDoc) (L k : Nat) (hL : 1 ≤ L)
    (hk : (ranked start endEx offers).length ≤ k * L) :
    ((List.range k).map
      (fun i => pageSlice (i * L) L (ranked start endEx offers))).flatten =
      ranked start endEx offers := by
  unfold pageSlice
  rw [join_pageSlices]
  exact List.take_of_length_le hk

/-- C9 witness: three ranked items, pages of size 2. -/
theorem pagination_reconstructs_ranking_witness :
    (1 ≤ 2 ∧
      (ranked 0 100 [⟨"c", "a", [⟨10, 1⟩]⟩, ⟨"c", "b", [⟨10, 2⟩]⟩,
        ⟨"c", "d", [⟨10, 3⟩]⟩]).length ≤ 2 * 2) ∧
    ((List.range 2).map
      (fun i => pageSlice (i * 2) 2 (ranked 0 100 [⟨"c", "a", [⟨10, 1⟩]⟩,
        ⟨"c", "b", [⟨10, 2⟩]⟩, ⟨"c", "d", [⟨10, 3⟩]⟩]))).flatten =
      ranked 0 100 [⟨"c", "a", [⟨10, 1⟩]⟩, ⟨"c", "b", [⟨10, 2⟩]⟩,
        ⟨"c", "d", [⟨10, 3⟩]⟩] := by
  have hlen : (ranked 0 100 [⟨"c", "a", [⟨10, 1⟩]⟩, ⟨"c", "b", [⟨10, 2⟩]⟩,
      ⟨"c", "d", [⟨10, 3⟩]⟩]).length ≤ 2 * 2 := by
    rw [ranked_eval 0 100 _ [⟨"a", 1, [⟨10, 1⟩]⟩, ⟨"b", 2, [⟨10, 2⟩]⟩,
      ⟨"d", 3, [⟨10, 3⟩]⟩] (by decide) (by decide)]
    decide
  exact ⟨⟨by decide, hlen⟩,
    pagination_reconstructs_ranking 0 100 _ 2 2 (by decide) hlen⟩

/-- The maximum `date` among `a :: l`, written independently of the
reduction order (symmetric `max` fold). -/
def maxDate (a : Snapshot) (l : List Snapshot) : Int :=
  l.foldl (fun m t => max m t.date) a.date

theorem le_foldl_max (l : List Snapshot) (x : Int) :
    x ≤ l.foldl (fun m t => max m t.date) x := by
  induction l generalizing x with
  | nil => simp
  | cons b u ih => exact le_trans (le_max_left _ _) (ih (max x b.date))

theorem maxDate_cons (a b : Snapshot) (l : List Snapshot) :
    maxDate a (b :: l) = maxDate (if b.date ≤ a.date then a else b) l := by
  unfold maxDate
  simp only [List.foldl_cons]
  have h : max a.date b.date = (if b.date ≤ a.date then a else b).date := by
    split
    · exact max_eq_left (by assumption)
    · exact max_eq_right (le_of_not_le (by assumption))
  rw [h]

/-- The JS reduce keeps its earlier argument on date ties, so it selects the
first element of the list achieving the maximal date. -/
theorem find?_maxDate_eq_latest1 (a : Snapshot) (l : List Snapshot) :
    (a :: l).find? (fun t => decide (t.date = maxDate a l)) = some (latest1 a l) := by
  induction l generalizing a with
  | nil => simp [latest1, maxDate]
  | cons b u ih =>
    rw [latest1_cons, maxDate_cons]
    by_cases hb : b.date ≤ a.date
    · rw [if_pos hb]
      have ih2 := ih a
      have ham : a.date ≤ maxDate a u := by
        unfold maxDate
        exact le_foldl_max u a.date
      by_cases ha : a.date = maxDate a u
      · rw [List.find?_cons_of_pos _ (by simpa using ha)]
        rw [List.find?_cons_of_pos _ (by simpa using ha)] at ih2
        exact ih2
      · have hb2 : ¬ (b.date = maxDate a u) := by omega
        rw [List.find?_cons_of_neg _ (by simpa using ha),
          List.find?_cons_of_neg _ (by simpa using hb2)]
        rw [List.find?_cons_of_neg _ (by simpa using ha)] at ih2
        exact ih2
    · rw [if_neg hb]
      have hbm : b.date ≤ maxDate b u := by
        unfold maxDate
        exact le_foldl_max u b.date
      have ha2 : ¬ (a.date = maxDate b u) := by omega
      rw [List.find?_cons_of_neg _ (by simpa using ha2)]
      exact ih b

/-- C10: among tied maximal-date qualifying snapshots the reduction keeps its
earlier argument, so the representative snapshot is the first element of the
item's filtered positions sequence (stored order) achieving the maximal
date. -/
theorem tie_break_keeps_first_stored (start endEx : Int) (o : GamePosDoc)
    (a : Snapshot) (l : List Snapshot) (r : RankedOffer)
    (hpos : positionsInWeek start endEx o = a :: l)
    (hr : offerWithPositions start endEx o = some r) :
    (positionsInWeek start endEx o).find?
        (fun t => decide (t.date = maxDate a l)) = some (latest1 a l) ∧
    r.position = (latest1 a l).position := by
  constructor
  · rw [hpos]
    exact find?_maxDate_eq_latest1 a l
  · unfold offerWithPositions at hr
    rw [hpos] at hr
    simp only [Option.some.injEq] at hr
    rw [← hr]

/-- C10 witness: two qualifying snapshots tied at date 5; the first stored
one (position 2) is selected. -/
theorem tie_break_keeps_first_stored_witness :
    (positionsInWeek 0 100 ⟨"c", "x", [⟨5, 2⟩, ⟨5, 7⟩]⟩).find?
        (fun t => decide (t.date = maxDate ⟨5, 2⟩ [⟨5, 7⟩])) =
      some (latest1 ⟨5, 2⟩ [⟨5, 7⟩]) ∧
    (⟨"x", 2, [⟨5, 2⟩, ⟨5, 7⟩]⟩ : RankedOffer).position =
      (latest1 ⟨5, 2⟩ [⟨5, 7⟩]).position :=
  tie_break_keeps_first_stored 0 100 ⟨"c", "x", [⟨5, 2⟩, ⟨5, 7⟩]⟩
    ⟨5, 2⟩ [⟨5, 7⟩] ⟨"x", 2, [⟨5, 2⟩, ⟨5, 7⟩]⟩ (by decide) (by decide)

/-- A joined row carries the ranked entry it was built from. -/
theorem joinRow_metadata (offersData : List OfferDoc) (pricesData : List PriceDoc)
    (o : RankedOffer) (row : JoinedRow)
    (h : joinRow offersData pricesData o = some row) : row.metadata = o := by
  unfold joinRow at h
  rcases h1 : offersData.find? (fun x => x.id == o.offerId) with _ | od <;>
    rcases h2 : pricesData.find? (fun x => x.offerId == o.offerId) with _ | pd <;>
      rw [h1, h2] at h <;> simp only [Option.some.injEq] at h
  · exact absurd h (by simp)
  · exact absurd h (by simp)
  · exact absurd h (by simp)
  · rw [← h]

/-- C8: a missed metadata or price lookup drops exactly the affected sliced
entry: the entry's id is logged, no output row is built from it, every
sliced entry yields either a row or a diagnostic, ranking order is preserved
among the surviving rows, and the request as a whole still succeeds whatever
the two lookups return. -/
theorem missing_lookup_drops_row_only :
    (∀ offersData pricesData (items : List RankedOffer) o, o ∈ items →
      joinRow offersData pricesData o = none →
        o.offerId ∈ joinDiagnostics offersData pricesData items ∧
        ∀ row ∈ offersWithMetadata offersData pricesData items, row.metadata ≠ o) ∧
    (∀ offersData pricesData (items : List RankedOffer),
      (offersWithMetadata offersData pricesData items).length +
        (joinDiagnostics offersData pricesData items).length = items.length) ∧
    (∀ offersData pricesData (items : List RankedOffer),
      items.Pairwise (fun x y => x.position ≤ y.position) →
      (offersWithMetadata offersData pricesData items).Pairwise
        (fun x y => x.metadata.position ≤ y.metadata.position)) ∧
    (∀ db cache slug week region limitQ pageQ start endEx col,
      getIsoWeekRangeUTC week = some (start, endEx) →
      db.collections.find? (fun c2 => c2.idStr == slug) = some col →
      ∃ p c3, weeklyHandler db cache slug week region limitQ pageQ = (.ok p, c3)) := by
  refine ⟨?_, ?_, ?_, ?_⟩
  · intro od pr items o ho hnone
    constructor
    · unfold joinDiagnostics
      rw [List.mem_map]
      exact ⟨o, List.mem_filter.mpr ⟨ho, by simp [hnone]⟩, rfl⟩
    · intro row hrow hmeta
      unfold offersWithMetadata at hrow
      rw [List.mem_filterMap] at hrow
      obtain ⟨o2, _, hjoin⟩ := hrow
      have hm2 := joinRow_metadata od pr o2 row hjoin
      have ho2 : o2 = o := by rw [← hm2, hmeta]
      rw [ho2, hnone] at hjoin
      cases hjoin
  · intro od pr items
    induction items with
    | nil => simp [offersWithMetadata, joinDiagnostics]
    | cons hd tl ih =>
      unfold offersWithMetadata joinDiagnostics
      unfold offersWithMetadata joinDiagnostics at ih
      cases h : joinRow od pr hd <;>
        simp only [List.length_map] at ih <;>
        simp [List.filterMap_cons, List.filter_cons, h] <;> omega
  · intro od pr items hp
    unfold offersWithMetadata
    exact List.Pairwise.filterMap _ (fun a b hab row hrow row2 hrow2 => by
      rw [joinRow_metadata od pr a row hrow, joinRow_metadata od pr b row2 hrow2]
      exact hab) hp
  · intro db cache slug week region limitQ pageQ start endEx col hweek hcol
    unfold weeklyHandler
    rw [hweek, hcol]
    exact ⟨_, _, rfl⟩

/-- C8 witness: a two-entry slice with metadata for only one entry — the
other is dropped and logged — plus a concrete successful request with an
empty price table. -/
theorem missing_lookup_drops_row_only_witness :
    (("b" : String) ∈ joinDiagnostics [⟨"a", "A"⟩] [⟨"a", "US", ⟨100, 50, 50, "USD"⟩⟩]
        [⟨"a", 1, []⟩, ⟨"b", 2, []⟩] ∧
      ∀ row ∈ offersWithMetadata [⟨"a", "A"⟩] [⟨"a", "US", ⟨100, 50, 50, "USD"⟩⟩]
        [⟨"a", 1, []⟩, ⟨"b", 2, []⟩], row.metadata ≠ ⟨"b", 2, []⟩) ∧
    (∃ p c3, weeklyHandler ⟨[⟨"top", "Top", "t0"⟩], [], [], []⟩ [] "top" "2025W31"
      "US" 10 1 = (.ok p, c3)) := by
  constructor
  · exact missing_lookup_drops_row_only.1 [⟨"a", "A"⟩]
      [⟨"a", "US", ⟨100, 50, 50, "USD"⟩⟩] [⟨"a", 1, []⟩, ⟨"b", 2, []⟩]
      ⟨"b", 2, []⟩ (by decide) (by decide)
  · exact missing_lookup_drops_row_only.2.2.2 ⟨[⟨"top", "Top", "t0"⟩], [], [], []⟩
      [] "top" "2025W31" "US" 10 1 (dateUTCms 2025 7 28) (dateUTCms 2025 8 4)
      ⟨"top", "Top", "t0"⟩ (by decide) (by decide)

/-! ## C5: cache interaction of the weekly route

The source builds the cache key and writes the payload, but the cache *read*
(lines 182–185) is commented out, so a stored payload is never returned. -/

/-- A collection document for concrete cache scenarios. -/
def stubCollection : CollectionDoc := ⟨"top", "Top", "t0"⟩

/-- A database holding `stubCollection` and nothing else. -/
def stubDb : Db := ⟨[stubCollection], [], [], []⟩

/-- A payload planted in the cache, recognizably different from anything the
pipeline can compute against `stubDb` (`total = 999`). -/
def stubCachedPage : Page := ⟨[], 7, 7, "CACHED", 999, "zz", 0, 0⟩

/-- The cache key the route builds for
`GET /top/2025W31?country→US, page 1, limit 10`. -/
def stubKey : String := weeklyCacheKey "2025W31" "top" "US" 1 10

/-- C5 counterexample: the weekly cache key is present in the cache, yet the
route does not return the stored payload (the cache read is commented out in
the source; the pipeline recomputes). -/
theorem weekly_cache_hit_counterexample :
    (([(stubKey, stubCachedPage)].find? (fun e => e.1 == stubKey)).isSome = true) ∧
    (weeklyHandler stubDb [(stubKey, stubCachedPage)] "top" "2025W31" "US" 10 1).1 ≠
      WeeklyResp.ok stubCachedPage := by
  refine ⟨by decide, fun hcontra => ?_⟩
  have hweek : getIsoWeekRangeUTC "2025W31" =
      some (dateUTCms 2025 7 28, dateUTCms 2025 8 4) := by decide
  have hcol : stubDb.collections.find? (fun col => col.idStr == "top") =
      some stubCollection := by decide
  unfold weeklyHandler at hcontra
  simp only [hweek, hcol, List.filter_nil] at hcontra
  have hr : ranked (dateUTCms 2025 7 28) (dateUTCms 2025 8 4) [] = [] :=
    ranked_eval _ _ _ _ rfl (by simp)
  have hgp : stubDb.gamePositions.filter (fun g => g.collectionId == stubCollection.idStr) =
      ([] : List GamePosDoc) := rfl
  rw [hgp, hr] at hcontra
  simp only [weeklyResultOf, hr] at hcontra
  have heq := WeeklyResp.ok.inj hcontra
  have htot := congrArg Page.total heq
  simp [stubCachedPage] at htot

/-- C5 (amended): the weekly route never reads the cache — its response is
the same whatever the cache holds — and on success it writes the freshly
computed payload under the route's cache key. -/
theorem weekly_cache_never_read (db : Db) (cache cache2 : List (String × Page))
    (slug week region : String) (limitQ pageQ : Nat) :
    (weeklyHandler db cache slug week region limitQ pageQ).1 =
      (weeklyHandler db cache2 slug week region limitQ pageQ).1 ∧
    (∀ p, (weeklyHandler db cache slug week region limitQ pageQ).1 = .ok p →
      (weeklyHandler db cache slug week region limitQ pageQ).2 =
        cacheSet cache (weeklyCacheKey week slug region (max pageQ 1) (min limitQ 50)) p) := by
  cases hw : getIsoWeekRangeUTC week with
  | none =>
    unfold weeklyHandler
    simp only [hw]
    exact ⟨by trivial, fun p hp => by simp at hp⟩
  | some se =>
    obtain ⟨s, e⟩ := se
    cases hc : db.collections.find? (fun col => col.idStr == slug) with
    | none =>
      unfold weeklyHandler
      simp only [hw, hc]
      exact ⟨by trivial, fun p hp => by simp at hp⟩
    | some col =>
      unfold weeklyHandler
      simp only [hw, hc]
      refine ⟨by trivial, fun p hp => ?_⟩
      cases hp
      rfl

/-- C5 amended witness: concrete request against `stubDb`, with the cache
respectively empty and pre-populated. -/
theorem weekly_cache_never_read_witness :
    (weeklyHandler stubDb [] "top" "2025W31" "US" 10 1).1 =
      (weeklyHandler stubDb [(stubKey, stubCachedPage)] "top" "2025W31" "US" 10 1).1 ∧
    (∀ p, (weeklyHandler stubDb [] "top" "2025W31" "US" 10 1).1 = .ok p →
      (weeklyHandler stubDb [] "top" "2025W31" "US" 10 1).2 =
        cacheSet [] (weeklyCacheKey "2025W31" "top" "US" (max 1 1) (min 10 50)) p) :=
  weekly_cache_never_read stubDb [] [(stubKey, stubCachedPage)] "top" "2025W31" "US" 10 1

/-! ## C6/C7: the artifact registry -/

/-- If no document of the registry carries `hex`, rewriting the first
`imageId` match in place makes the rewritten document the unique — hence the
first — `hex` hit. -/
theorem find?_map_overwrite (reg : List RegistryDoc) (imageId : String) (hex : OgKey)
    (h : ∀ d ∈ reg, d.hash ≠ hex) :
    reg.any (fun d => d.imageId == imageId) = true →
    (reg.map (fun d => if d.imageId == imageId then ⟨imageId, hex⟩ else d)).find?
      (fun d => decide (d.hash = hex)) = some ⟨imageId, hex⟩ := by
  induction reg with
  | nil => intro hany; simp at hany
  | cons d tl ih =>
    intro hany
    by_cases hd : d.imageId == imageId
    · simp only [List.map_cons, hd, if_pos]
      rw [List.find?_cons_of_pos _ (by simp)]
    · have htl : tl.any (fun x => x.imageId == imageId) = true := by
        simp only [List.any_cons, hd] at hany
        simpa using hany
      simp only [List.map_cons, hd, if_neg, Bool.false_eq_true, not_false_iff]
      rw [List.find?_cons_of_neg _ (by simpa using h d (List.mem_cons_self _ _))]
      exact ih (fun x hx => h x (List.mem_cons_of_mem _ hx)) htl

/-- Appending a fresh `{imageId, hex}` document to a registry with no `hex`
hit makes it the first `hex` hit. -/
theorem find?_append_new (reg : List RegistryDoc) (imageId : String) (hex : OgKey)
    (h : ∀ d ∈ reg, d.hash ≠ hex) :
    (reg ++ [(⟨imageId, hex⟩ : RegistryDoc)]).find? (fun d => decide (d.hash = hex)) =
      some ⟨imageId, hex⟩ := by
  induction reg with
  | nil => simp
  | cons d tl ih =>
    rw [List.cons_append,
      List.find?_cons_of_neg _ (by simpa using h d (List.mem_cons_self _ _))]
    exact ih (fun x hx => h x (List.mem_cons_of_mem _ hx))

/-- After the upsert, looking the content hash up finds exactly the document
the upsert stored. -/
theorem find?_upsertRegistry (reg : List RegistryDoc) (imageId : String) (hex : OgKey)
    (h : ∀ d ∈ reg, d.hash ≠ hex) :
    (upsertRegistry reg imageId hex).find? (fun d => decide (d.hash = hex)) =
      some ⟨imageId, hex⟩ := by
  unfold upsertRegistry
  split
  · exact find?_map_overwrite reg imageId hex h (by assumption)
  · exact find?_append_new reg imageId hex h

/-- C6: two artifact calls with the same week, region and top-N row content,
no forced re-render and no raw-bytes request, answer the same image id and
url; the second call hits the registry and neither renders nor uploads. -/
theorem artifact_dedup_deterministic (reg : List RegistryDoc)
    (week region : String) (rows : List OgRow) (imageId : String) :
    ∃ j,
      (ogHandler reg (.ok imageId) week region rows false false).resp =
        .json j (ogUrl j) ∧
      (ogHandler (ogHandler reg (.ok imageId) week region rows false false).registry
          (.ok imageId) week region rows false false).resp = .json j (ogUrl j) ∧
      (ogHandler (ogHandler reg (.ok imageId) week region rows false false).registry
          (.ok imageId) week region rows false false).rendered = false ∧
      (ogHandler (ogHandler reg (.ok imageId) week region rows false false).registry
          (.ok imageId) week region rows false false).uploaded = false := by
  cases hfind : reg.find? (fun d => decide (d.hash = (week, region, rows))) with
  | some doc =>
    have h1 : ogHandler reg (.ok imageId) week region rows false false =
        ⟨.json doc.imageId (ogUrl doc.imageId), reg, false, false⟩ := by
      unfold ogHandler
      simp [hfind]
    have hreg : (ogHandler reg (Except.ok imageId) week region rows false false).registry =
        reg := by rw [h1]
    refine ⟨doc.imageId, by rw [h1], ?_, ?_, ?_⟩ <;> rw [hreg, h1]
  | none =>
    have hall : ∀ d ∈ reg, d.hash ≠ (week, region, rows) := by
      intro d hd heq
      have h0 := List.find?_eq_none.mp hfind d hd
      simp [heq] at h0
    have h1 : ogHandler reg (.ok imageId) week region rows false false =
        ⟨.json imageId (ogUrl imageId),
          upsertRegistry reg imageId (week, region, rows), true, true⟩ := by
      unfold ogHandler ogRenderPath
      simp [hfind]
    have h2 := find?_upsertRegistry reg imageId (week, region, rows) hall
    have h3 : ogHandler (upsertRegistry reg imageId (week, region, rows))
        (.ok imageId) week region rows false false =
        ⟨.json imageId (ogUrl imageId),
          upsertRegistry reg imageId (week, region, rows), false, false⟩ := by
      unfold ogHandler
      simp [h2]
    have hreg : (ogHandler reg (Except.ok imageId) week region rows false false).registry =
        upsertRegistry reg imageId (week, region, rows) := by rw [h1]
    refine ⟨imageId, by rw [h1], ?_, ?_, ?_⟩ <;> rw [hreg, h3]

/-- C7: with a failing upload collaborator the artifact operation never
writes the registry, and whenever it actually reaches the upload (no
registry hit, no raw-bytes request) it terminates with the explicit upload
error. -/
theorem upload_failure_leaves_registry_unchanged (reg : List RegistryDoc)
    (week region : String) (rows : List OgRow) (render direct : Bool) :
    (ogHandler reg (.error ()) week region rows render direct).registry = reg ∧
    ((if render then none
        else reg.find? (fun d => decide (d.hash = (week, region, rows)))) = none →
      direct = false →
      (ogHandler reg (.error ()) week region rows render direct).resp =
        .uploadFailed) := by
  unfold ogHandler ogRenderPath
  cases render <;> cases direct <;>
    cases hfind : reg.find? (fun d => decide (d.hash = (week, region, rows))) <;>
      simp [hfind]

/-- C7 witness: empty registry, forced-nothing request; the failed upload
yields the explicit error and leaves the registry empty. -/
theorem upload_failure_leaves_registry_unchanged_witness :
    (ogHandler [] (.error ()) "2025W31" "US" [] false false).registry = [] ∧
    ((if false then none
        else ([] : List RegistryDoc).find?
          (fun d => decide (d.hash = ("2025W31", "US", ([] : List OgRow))))) = none →
      false = false →
      (ogHandler [] (.error ()) "2025W31" "US" [] false false).resp =
        .uploadFailed) :=
  upload_failure_leaves_registry_unchanged [] "2025W31" "US" [] false false
